import Mathlib

/-!
Verification of the Obsidian "Vault LLM Assistant" plugin (src/main.ts and
src/models — the `OPENAI_MODELS` catalog) against its natural-language
specification.

Strings are modelled as `List Char` (JavaScript strings are sequences of
UTF-16 code units; for the code paths verified here the unit/character
distinction is irrelevant, except in the API-key cipher where we model code
units directly as `Nat`).  Each definition carries a comment pointing at the
TypeScript source it embeds.
-/

namespace VaultLLM

/-- JavaScript `\s` whitespace class restricted to the ASCII characters that
occur in the verified code paths (space, tab, LF, CR, VT, FF). -/
def isWs (c : Char) : Bool :=
  c = ' ' || c = '\t' || c = '\n' || c = '\r' || c = '\x0b' || c = '\x0c'

/-- `starts pat l` : `pat` is a prefix of `l` (JS `String.startsWith`). -/
def starts : List Char → List Char → Bool
  | [], _ => true
  | _ :: _, [] => false
  | p :: ps, c :: cs => p = c && starts ps cs

/-- `hasTok tok l` : the token `tok` occurs contiguously somewhere in `l`
(JS `String.includes` / an unanchored regex literal match). -/
def hasTok (tok : List Char) : List Char → Bool
  | [] => starts tok []
  | c :: cs => starts tok (c :: cs) || hasTok tok cs

/-- JS `String.trim`: drop whitespace from both ends. -/
def trimChars (l : List Char) : List Char :=
  ((l.dropWhile isWs).reverse.dropWhile isWs).reverse

/-- Drop trailing whitespace only (used to model the `/\n```\s*$/` regex). -/
def dropTrailWs (l : List Char) : List Char :=
  (l.reverse.dropWhile isWs).reverse

/-- `endsTok pat l` : `pat` is a suffix of `l` (JS `String.endsWith`). -/
def endsTok (pat l : List Char) : Bool :=
  starts pat.reverse l.reverse

/-! ## Vault scanning (src/main.ts, `scanVault`, lines 235-284)

The plugin settings interface (src/main.ts lines 35-53).  Only the fields
exercised by the verified claims are embedded; `TFile` carries the path and
the content that `vault.cachedRead` would return for it. -/

structure TFile where
  path : List Char
  content : List Char
deriving DecidableEq, Repr

structure VaultLLMAssistantSettings where
  modelProvider : String
  model : String
  useLocalLLM : Bool
  maxTokens : Nat
  includeCurrentFileOnly : Bool
  includeFolder : List Char
  excludeFolder : List (List Char)
  generateTitlesWithLLM : Bool
  useVaultContent : Bool
  mode : String
deriving Repr, DecidableEq

/-- src/main.ts lines 249-266: the folder filters.  `includeFolder` is applied
first when it is truthy (non-empty); the `excludeFolder` filter is applied to
the result when the exclude list is non-empty. -/
def folderFiltered (s : VaultLLMAssistantSettings) (allFiles : List TFile) :
    List TFile :=
  let filesToScan :=
    if s.includeFolder ≠ [] then
      allFiles.filter (fun f => starts s.includeFolder f.path)
    else allFiles
  if 0 < s.excludeFolder.length then
    filesToScan.filter (fun f => !(s.excludeFolder.any (fun d => starts d f.path)))
  else filesToScan

/-- src/main.ts lines 246-267: the file-selection step of `scanVault`.
`if (this.settings.includeCurrentFileOnly && currentFile)` pushes just the
current file; otherwise the folder filters run over all markdown files. -/
def selectFiles (s : VaultLLMAssistantSettings) (allFiles : List TFile)
    (currentFile : Option TFile) : List TFile :=
  if s.includeCurrentFileOnly then
    match currentFile with
    | some f => [f]
    | none => folderFiltered s allFiles
  else folderFiltered s allFiles

/-- src/main.ts line 273: one block of the context blob,
`FILE: ${file.path}\n\n${content}\n\n`. -/
def blockOf (f : TFile) : List Char :=
  "FILE: ".data ++ f.path ++ "\n\n".data ++ f.content ++ "\n\n".data

/-- src/main.ts lines 269-277: the `allContents +=` loop, i.e. the blocks of
the selected files concatenated in order. -/
def blocksOf : List TFile → List Char
  | [] => []
  | f :: fs => blockOf f ++ blocksOf fs

/-- src/main.ts lines 235-284, `scanVault` (with `vault.cachedRead` modelled
as the `content` field of `TFile` and no read errors): returns
`additionalContext` alone when vault content is disabled, otherwise the
concatenated blocks with `additionalContext + "\n\n"` prepended when the
additional context is non-empty. -/
def scanVault (s : VaultLLMAssistantSettings) (allFiles : List TFile)
    (currentFile : Option TFile) (additionalContext : List Char) : List Char :=
  if s.useVaultContent = false then additionalContext
  else
    let allContents := blocksOf (selectFiles s allFiles currentFile)
    if additionalContext ≠ [] then
      additionalContext ++ "\n\n".data ++ allContents
    else allContents

/-! ## Markdown-fence cleanup (src/main.ts, `cleanMarkdownResponse`, lines 828-839) -/

/-- Case-insensitive character comparison (the regexes carry the `i` flag). -/
def lcEq (a b : Char) : Bool := a.toLower == b.toLower

/-- Match a literal word case-insensitively at the head, returning the rest. -/
def matchWord : List Char → List Char → Option (List Char)
  | [], l => some l
  | _ :: _, [] => none
  | p :: ps, c :: cs => if lcEq p c then matchWord ps cs else none

/-- The fence-opener token of the regex ```` ```m(?:d|arkdown) ```` (with the
`i` flag): three backticks, `m`, then `d` or `arkdown`.  Returns the rest of
the input after the token.  The two alternatives are mutually exclusive, so
committing to `d` first is exactly the regex's alternation order. -/
def dropOpener (l : List Char) : Option (List Char) :=
  match l with
  | a :: b :: c :: d :: rest =>
    if a = '`' ∧ b = '`' ∧ c = '`' ∧ lcEq d 'm' = true then
      match matchWord "d".data rest with
      | some r => some r
      | none => matchWord "arkdown".data rest
    else none
  | _ => none

/-- Greedy `\s*\n`: consume the maximal whitespace run up to and including
its **last** `\n` (regex backtracking), returning the rest; `none` when the
leading whitespace run contains no newline. -/
def dropWsNl (l : List Char) : Option (List Char) :=
  match l with
  | [] => none
  | c :: cs =>
    if isWs c then
      match dropWsNl cs with
      | some r => some r
      | none => if c = '\n' then some cs else none
    else none

/-- src/main.ts line 829: `text.replace(/^```m(?:d|arkdown)\s*\n/i, "")`. -/
def stripOpen (l : List Char) : List Char :=
  match dropOpener l with
  | none => l
  | some r =>
    match dropWsNl r with
    | some r2 => r2
    | none => l

/-- src/main.ts line 830: `text.replace(/\n```\s*$/i, "")`.  The anchored
pattern has at most one match: it exists exactly when the input with its
trailing whitespace removed ends in `\n```` ``` ````, and removing the match
drops that four-character suffix together with the trailing whitespace. -/
def stripCloser (l : List Char) : List Char :=
  let t := dropTrailWs l
  if endsTok "\n```".data t then t.take (t.length - 4) else l

/-- One unanchored match of ```` /```m(?:d|arkdown)\s*\n/i ```` at the head. -/
def matchOpenNl (l : List Char) : Option (List Char) :=
  match dropOpener l with
  | none => none
  | some r => dropWsNl r

/-- src/main.ts line 835: the unanchored
`text.replace(/```m(?:d|arkdown)\s*\n/i, "")` — remove the leftmost match. -/
def replOpenAny : List Char → List Char
  | [] => []
  | c :: cs =>
    match matchOpenNl (c :: cs) with
    | some r => r
    | none => c :: replOpenAny cs

/-- src/main.ts line 832: `text.match(/```m(?:d|arkdown)/i)` — index of the
leftmost occurrence of the fence-opener token. -/
def findOpen : List Char → Option Nat
  | [] => none
  | c :: cs =>
    if (dropOpener (c :: cs)).isSome then some 0
    else (findOpen cs).map (· + 1)

/-- src/main.ts lines 828-839, `cleanMarkdownResponse`: strip an anchored
opener, strip an anchored closer, then — when a fence opener still occurs at
a **positive** index (`if (mdFenceMatch && mdFenceMatch.index)`) — discard
everything before it and remove the leftmost `opener\s*\n` match. -/
def cleanMarkdownResponse (text : List Char) : List Char :=
  let t1 := stripOpen text
  let t2 := stripCloser t1
  match findOpen t2 with
  | some i => if i = 0 then t2 else replOpenAny (t2.drop i)
  | none => t2

/-! ## LLM adapters: error strings (src/main.ts, lines 385-695) -/

/-- The shape of a `requestUrl` rejection as the catch blocks consume it:
an optional HTTP status, an optional `error.message`, and — when
`error.text` exists, the body parses as JSON and carries `error.message` —
that server-side message. -/
structure HttpErr where
  status : Option Nat
  message : Option (List Char)
  bodyErrMessage : Option (List Char)

/-- JS truthiness for an optional number: `0` is falsy. -/
def truthyN : Option Nat → Option Nat
  | some n => if n = 0 then none else some n
  | none => none

/-- JS truthiness for an optional string: the empty string is falsy. -/
def truthyS : Option (List Char) → Option (List Char)
  | some m => if m = [] then none else some m
  | none => none

/-- `error.message || "Unknown error"` (src/main.ts lines 497, 599, 680). -/
def msgOrUnknown (m : Option (List Char)) : List Char :=
  match truthyS m with
  | some t => t
  | none => "Unknown error".data

/-- src/main.ts lines 471-499: the OpenAI status switch. -/
def gptStatusText (st : Nat) (msg : Option (List Char)) : List Char :=
  if st = 401 then "Authentication error. Please check your API key.".data
  else if st = 403 then
    "Permission denied. Your API key may not have access to this model.".data
  else if st = 404 then
    "The specified model was not found. It might be deprecated or unavailable.".data
  else if st = 429 then
    "Rate limit exceeded or quota exceeded. Please check your OpenAI plan and limits.".data
  else if st = 500 ∨ st = 502 ∨ st = 503 ∨ st = 504 then
    "OpenAI server error. Please try again later.".data
  else "Status ".data ++ (toString st).data ++ ": ".data ++ msgOrUnknown msg

/-- src/main.ts lines 569-601: the Gemini status switch. -/
def geminiStatusText (st : Nat) (msg : Option (List Char)) : List Char :=
  if st = 400 then "Bad request. Check your model name and request format.".data
  else if st = 401 then "Authentication error. Please check your API key.".data
  else if st = 403 then
    "Permission denied. Your API key may not have access to this model.".data
  else if st = 404 then
    "The specified model was not found. It might be deprecated or unavailable.".data
  else if st = 429 then
    "Rate limit exceeded or quota exceeded. Please check your Google AI Studio quota.".data
  else if st = 500 ∨ st = 502 ∨ st = 503 ∨ st = 504 then
    "Gemini server error. Please try again later.".data
  else "Status ".data ++ (toString st).data ++ ": ".data ++ msgOrUnknown msg

/-- src/main.ts lines 665-682: the LM Studio status switch (`case 0` is
retained from the source even though `if (error.status)` never lets 0 in). -/
def lmStatusText (st : Nat) (msg : Option (List Char)) : List Char :=
  if st = 404 then "Endpoint not found. Check your LM Studio URL setting.".data
  else if st = 500 then "Server error. Check LM Studio logs.".data
  else if st = 0 then
    "Connection failed. Is LM Studio running and the server started?".data
  else "Status ".data ++ (toString st).data ++ ": ".data ++ msgOrUnknown msg

/-- src/main.ts lines 452-507: everything the OpenAI catch block appends
after the fixed prefix. -/
def gptErrTail (e : HttpErr) : List Char :=
  match e.bodyErrMessage with
  | some m => "Server message: ".data ++ m
  | none =>
    match truthyN e.status with
    | some st => gptStatusText st e.message
    | none =>
      match truthyS e.message with
      | some m => m
      | none => "Unknown error occurred".data

/-- src/main.ts lines 550-609: the Gemini catch block's tail. -/
def geminiErrTail (e : HttpErr) : List Char :=
  match e.bodyErrMessage with
  | some m => "Server message: ".data ++ m
  | none =>
    match truthyN e.status with
    | some st => geminiStatusText st e.message
    | none =>
      match truthyS e.message with
      | some m => m
      | none => "Unknown error occurred".data

/-- src/main.ts lines 660-694: the LM Studio catch block's tail (there is no
`error.text` body-parsing step; a message containing "Connection refused" or
"Failed to fetch" is replaced by the connection hint). -/
def lmErrTail (e : HttpErr) : List Char :=
  match truthyN e.status with
  | some st => lmStatusText st e.message
  | none =>
    match truthyS e.message with
    | some m =>
      if hasTok "Connection refused".data m || hasTok "Failed to fetch".data m then
        "Connection failed. Is LM Studio running and the server started?".data
      else m
    | none => "Unknown error occurred".data

/-- The parsed Gemini success body: the candidates' texts and the optional
inline `error` object (whose own `message` may be absent/empty). -/
structure GeminiResp where
  candidates : List (List Char)
  err : Option (Option (List Char))

/-- src/main.ts lines 385-508, `queryGPT`, modelled on the request outcome:
a success body carries the `choices` texts. -/
def queryGPT : Except HttpErr (List (List Char)) → List Char
  | .ok choices =>
    match choices with
    | c :: _ => c
    | [] => "No response generated.".data
  | .error e => "Error querying OpenAI: ".data ++ gptErrTail e

/-- src/main.ts lines 516-610, `queryGemini`. -/
def queryGemini : Except HttpErr GeminiResp → List Char
  | .ok r =>
    match r.candidates with
    | c :: _ => c
    | [] =>
      match r.err with
      | some m => "Gemini API Error: ".data ++ msgOrUnknown m
      | none => "No response generated.".data
  | .error e => "Error querying Gemini: ".data ++ geminiErrTail e

/-- src/main.ts lines 619-695, `queryLMStudio`. -/
def queryLMStudio : Except HttpErr (List (List Char)) → List Char
  | .ok choices =>
    match choices with
    | c :: _ => c
    | [] => "No response generated.".data
  | .error e => "Error querying LM Studio: ".data ++ lmErrTail e

/-- src/main.ts lines 295-377, `queryLLM`: the provider dispatch with the
sub-adapter responses abstracted as inputs.  An unknown provider throws,
which the surrounding catch converts into `Error: ${error.message}`; in
create mode a successful response is post-processed. -/
def queryLLM (s : VaultLLMAssistantSettings)
    (lmResp gptResp gemResp : List Char) : List Char :=
  let dispatched : Option (List Char) :=
    if s.useLocalLLM then some lmResp
    else if s.modelProvider = "gpt" then some gptResp
    else if s.modelProvider = "gemini" then some gemResp
    else none
  match dispatched with
  | some r => if s.mode = "create" then cleanMarkdownResponse r else r
  | none => "Error: Unknown model provider".data

/-- src/main.ts lines 1479-1482 (and 1079-1082): the presentation boundary's
prefix test deciding whether a returned string is rendered as an error. -/
def isErrorResponse (r : List Char) : Bool :=
  starts "Error querying ".data r || starts "Gemini API Error:".data r

/-! ## Link normalization (src/main.ts, `processLinks` lines 1704-1775 and
`processWikiStyleLinks` lines 1782-1846) -/

/-- src/main.ts line 1716: `href.replace(/[\[\],]/g, "")`. -/
def removeBrk (l : List Char) : List Char :=
  l.filter (fun c => !(c = '[' || c = ']' || c = ','))

/-- Split at the first occurrence of `sep`: `some (before, after)` where
`after` is everything past the separator; `none` when `sep` never occurs. -/
def splitFirst (sep : List Char) : List Char → Option (List Char × List Char)
  | [] => none
  | c :: cs =>
    if starts sep (c :: cs) then some ([], (c :: cs).drop sep.length)
    else
      match splitFirst sep cs with
      | some (a, b) => some (c :: a, b)
      | none => none

/-- JS `str.split(sep, 2)[1]`: the segment between the first and second
occurrence of `sep` (`rest` itself when `sep` does not occur again). -/
def seg2 (sep rest : List Char) : List Char :=
  match splitFirst sep rest with
  | some (a, _) => a
  | none => rest

/-- JS `replace(/\s+/g, "-")`: each maximal whitespace run becomes one `-`.
The flag records whether the previous character was inside a run. -/
def collapseWsAux : Bool → List Char → List Char
  | _, [] => []
  | prev, c :: cs =>
    if isWs c then
      if prev then collapseWsAux true cs else '-' :: collapseWsAux true cs
    else c :: collapseWsAux false cs

def collapseWs (l : List Char) : List Char := collapseWsAux false l

/-- src/main.ts lines 1712-1740 (`processLinks`): from an href, compute the
`(filePath, fragment)` pair.  Brackets and commas are removed and the string
trimmed; a `" > "`-separated href gets a `#`-fragment that is trimmed,
lower-cased and whitespace-collapsed; an href containing `#` is split there
and the fragment kept verbatim (trimmed only); otherwise no fragment. -/
def normalizeHref (href : List Char) : List Char × List Char :=
  let cleanHref := trimChars (removeBrk href)
  if hasTok " > ".data cleanHref then
    match splitFirst " > ".data cleanHref with
    | some (p0, rest) =>
      (trimChars p0,
       '#' :: collapseWs ((trimChars (seg2 " > ".data rest)).map Char.toLower))
    | none => (cleanHref, [])
  else if hasTok "#".data cleanHref then
    match splitFirst "#".data cleanHref with
    | some (p0, rest) => (trimChars p0, '#' :: trimChars (seg2 "#".data rest))
    | none => (cleanHref, [])
  else (cleanHref, [])

/-- The `/\[\[([^\]]+)\]\]/g` scan of `processWikiStyleLinks`.  The fuel
argument (instantiated with the input length, which bounds the number of
scan steps) only makes the recursion structural. -/
def wikiInnersAux : Nat → List Char → List (List Char)
  | 0, _ => []
  | _ + 1, [] => []
  | fuel + 1, l@('[' :: '[' :: rest) =>
    let inner := rest.takeWhile (fun c => c ≠ ']')
    let after := rest.dropWhile (fun c => c ≠ ']')
    if inner ≠ [] ∧ starts "]]".data after then
      trimChars inner :: wikiInnersAux fuel (after.drop 2)
    else wikiInnersAux fuel l.tail
  | fuel + 1, _ :: cs => wikiInnersAux fuel cs

/-- src/main.ts lines 1790-1827 (`processWikiStyleLinks`): the inner targets
of the `/\[\[([^\]]+)\]\]/g` scan, trimmed — these become the `href`s that
`processLinks` then normalizes. -/
def wikiInners (l : List Char) : List (List Char) := wikiInnersAux l.length l

/-! ## The OpenAI model catalog and request-body token parameters
(src/models = src/unnamed/part_002, `OPENAI_MODELS`; src/main.ts lines
385-434, `queryGPT`) -/

structure OpenAIModel where
  id : String
  name : String
  useMaxCompletionTokens : Bool := false
  endpoint : Option String := none
deriving Repr, DecidableEq

/-- src/unnamed/part_002 lines 1-34: the static OpenAI catalog. -/
def OPENAI_MODELS : List OpenAIModel :=
  [{ id := "gpt-5.2-pro", name := "GPT-5.2 Pro", endpoint := some "/v1/responses" },
   { id := "gpt-5.2", name := "GPT-5.2", useMaxCompletionTokens := true },
   { id := "gpt-5.1", name := "GPT-5.1", useMaxCompletionTokens := true },
   { id := "gpt-5-pro", name := "GPT-5 Pro", endpoint := some "/v1/responses" },
   { id := "gpt-5", name := "GPT-5", useMaxCompletionTokens := true },
   { id := "gpt-5-mini", name := "GPT-5 Mini", useMaxCompletionTokens := true },
   { id := "gpt-5-nano", name := "GPT-5 Nano", useMaxCompletionTokens := true },
   { id := "o1-pro", name := "o1 Pro", endpoint := some "/v1/responses" },
   { id := "o1", name := "o1", useMaxCompletionTokens := true },
   { id := "o3", name := "o3", useMaxCompletionTokens := true },
   { id := "o3-mini", name := "o3 Mini", useMaxCompletionTokens := true },
   { id := "o4-mini", name := "o4 Mini", useMaxCompletionTokens := true },
   { id := "gpt-4.1", name := "GPT-4.1" },
   { id := "gpt-4.1-mini", name := "GPT-4.1 Mini" },
   { id := "gpt-4.1-nano", name := "GPT-4.1 Nano" },
   { id := "gpt-4o", name := "GPT-4o" },
   { id := "gpt-4o-mini", name := "GPT-4o Mini" },
   { id := "gpt-4-turbo", name := "GPT-4 Turbo" },
   { id := "gpt-4", name := "GPT-4" },
   { id := "gpt-3.5-turbo", name := "GPT-3.5 Turbo" },
   { id := "gpt-3.5-turbo-16k", name := "GPT-3.5 Turbo 16k" }]

/-- src/main.ts lines 389-432: the token-limit fields of the request body
built by `queryGPT`, as `(max_completion_tokens?, max_tokens?)`.  The model
config is looked up by id; a missing or absent `endpoint` defaults to
`/v1/chat/completions`; `max_completion_tokens` is set when the config asks
for it, otherwise `max_tokens` is set unless the endpoint is
`/v1/responses`. -/
def gptBodyTokenParams (modelId : String) (maxTokens : Nat) :
    Option Nat × Option Nat :=
  let modelConfig := OPENAI_MODELS.find? (fun m => m.id == modelId)
  let endpoint : String :=
    match modelConfig with
    | some m =>
      match m.endpoint with
      | some e => e
      | none => "/v1/chat/completions"
    | none => "/v1/chat/completions"
  if (match modelConfig with
      | some m => m.useMaxCompletionTokens
      | none => false) then (some maxTokens, none)
  else if endpoint ≠ "/v1/responses" then (none, some maxTokens)
  else (none, none)

/-! ## Note titles (src/main.ts lines 1582-1605, the view's Create-note
button handler; lines 1096-1112, `QueryModal.processQuery` create branch) -/

/-- src/main.ts lines 1587-1605: the note title in the sidebar view's
Create-note handler.  With LLM titling on, the generated title is used; with
it off, the query is truncated at 50 characters
(`query.substring(0, 50).trim() + "..."`) or just trimmed. -/
def viewNoteTitle (generateTitlesWithLLM : Bool) (llmTitle query : List Char) :
    List Char :=
  if generateTitlesWithLLM then llmTitle
  else if 50 < query.length then trimChars (query.take 50) ++ "...".data
  else trimChars query

/-- src/main.ts lines 1096-1112: the note title in `QueryModal.processQuery`
(create mode).  The date-stamped default is used unless LLM titling is on
(the catch on a failed titling call keeps the default). -/
def modalNoteTitle (generateTitlesWithLLM : Bool)
    (llmTitle : Option (List Char)) (dateStamp : List Char) : List Char :=
  let dflt := "LLM response ".data ++ dateStamp
  if generateTitlesWithLLM then
    match llmTitle with
    | some t => t
    | none => dflt
  else dflt

/-! ## API-key cipher (src/main.ts, `encryptApiKey` lines 848-863,
`decryptApiKey` lines 871-890)

JS strings entering `btoa` are sequences of code units ≤ 255; we model the
key, the device id and the mixed intermediate as lists of `Nat` code units
and `btoa`/`atob` as concrete base64 on such byte lists. -/

def b64Alphabet : List Char :=
  "ABCDEFGHIJKLMNOPQRSTUVWXYZabcdefghijklmnopqrstuvwxyz0123456789+/".data

def b64digit (n : Nat) : Char := b64Alphabet.getD n 'A'

def b64val (c : Char) : Nat := b64Alphabet.indexOf c

/-- `btoa`: standard base64 with `=` padding, three bytes at a time. -/
def btoaBytes : List Nat → List Char
  | [] => []
  | [b1] => [b64digit (b1 / 4), b64digit (b1 % 4 * 16), '=', '=']
  | [b1, b2] =>
    [b64digit (b1 / 4), b64digit (b1 % 4 * 16 + b2 / 16),
     b64digit (b2 % 16 * 4), '=']
  | b1 :: b2 :: b3 :: rest =>
    b64digit (b1 / 4) :: b64digit (b1 % 4 * 16 + b2 / 16) ::
    b64digit (b2 % 16 * 4 + b3 / 64) :: b64digit (b3 % 64) :: btoaBytes rest

/-- `atob` on well-formed base64: four characters at a time, honouring the
`=` padding. -/
def atobChars : List Char → List Nat
  | c1 :: c2 :: c3 :: c4 :: rest =>
    if c3 = '=' then [b64val c1 * 4 + b64val c2 / 16]
    else if c4 = '=' then
      [b64val c1 * 4 + b64val c2 / 16, b64val c2 % 16 * 16 + b64val c3 / 4]
    else
      (b64val c1 * 4 + b64val c2 / 16) ::
      (b64val c2 % 16 * 16 + b64val c3 / 4) ::
      (b64val c3 % 4 * 64 + b64val c4) :: atobChars rest
  | _ => []

/-- `deviceId[index % deviceId.length].charCodeAt(0)` (lines 856-858). -/
def devAt (dev : List Nat) (i : Nat) : Nat := dev.getD (i % dev.length) 0

/-- The `map((char, index) => charCode ^ deviceChar)` pass shared by both
directions of the cipher (lines 853-860 and 878-885). -/
def xorPad (dev : List Nat) : Nat → List Nat → List Nat
  | _, [] => []
  | i, b :: bs => (b ^^^ devAt dev i) :: xorPad dev (i + 1) bs

/-- src/main.ts lines 848-863, `encryptApiKey`: empty in, empty out;
otherwise XOR with the repeating device pad, then `btoa`. -/
def encryptApiKey (dev : List Nat) (apiKey : List Nat) : List Char :=
  if apiKey = [] then [] else btoaBytes (xorPad dev 0 apiKey)

/-- src/main.ts lines 871-890, `decryptApiKey`: empty in, empty out;
otherwise `atob`, then the same XOR pad.  (The catch for malformed base64 is
unreachable on `btoa` output.) -/
def decryptApiKey (dev : List Nat) (encryptedKey : List Char) : List Nat :=
  if encryptedKey = [] then [] else xorPad dev 0 (atobChars encryptedKey)

/-! ## Source-file extraction (src/main.ts, `extractSourceFiles`,
lines 1671-1681) -/

/-- Match a literal word **case-sensitively** at the head, returning the
rest (the `/FILE: /` pattern has no `i` flag). -/
def matchWordE : List Char → List Char → Option (List Char)
  | [], l => some l
  | _ :: _, [] => none
  | p :: ps, c :: cs => if p = c then matchWordE ps cs else none

theorem matchWordE_length_le {p l r : List Char} (h : matchWordE p l = some r) :
    r.length + p.length ≤ l.length := by
  induction p generalizing l with
  | nil => simp [matchWordE] at h; simp [h]
  | cons x xs ih =>
    cases l with
    | nil => simp [matchWordE] at h
    | cons c cs =>
      simp only [matchWordE] at h
      split at h
      · have := ih h; simp only [List.length_cons]; omega
      · exact absurd h (by simp)

/-- One attempted match of `/FILE: ([^\n]+)/` at the head of the input:
the literal `FILE: `, then a non-empty run of non-newline characters
(the capture), returning the capture and the rest of the input. -/
def matchFileAt (l : List Char) : Option (List Char × List Char) :=
  match matchWordE "FILE: ".data l with
  | none => none
  | some r =>
    if r.takeWhile (fun c => c ≠ '\n') = [] then none
    else some (r.takeWhile (fun c => c ≠ '\n'), r.dropWhile (fun c => c ≠ '\n'))

theorem matchFileAt_length_lt {l : List Char} {cap rest : List Char}
    (h : matchFileAt l = some (cap, rest)) : rest.length < l.length := by
  unfold matchFileAt at h
  split at h
  · exact absurd h (by simp)
  · rename_i r hw
    have hr := matchWordE_length_le hw
    split at h
    · exact absurd h (by simp)
    · simp only [Option.some.injEq, Prod.mk.injEq] at h
      have hd : (r.dropWhile (fun c => decide (c ≠ '\n'))).length ≤ r.length :=
        (r.dropWhile_sublist _).length_le
      rw [← h.2]
      have h6 : ("FILE: ".data : List Char).length = 6 := rfl
      omega

/-- The scan loop of `extractSourceFiles`: at each position try a match; on
success emit the capture and continue after it, otherwise advance one
character.  The fuel (instantiated with the input length, which bounds the
number of steps because a successful match consumes at least seven
characters) only makes the recursion structural. -/
def extractAux : Nat → List Char → List (List Char)
  | 0, _ => []
  | _ + 1, [] => []
  | fuel + 1, c :: cs =>
    match matchFileAt (c :: cs) with
    | some (cap, rest) => cap :: extractAux fuel rest
    | none => extractAux fuel cs

/-- src/main.ts lines 1671-1681, `extractSourceFiles`: the global regex scan
`/FILE: ([^\n]+)/g`, collecting captures left to right. -/
def extractSourceFiles (l : List Char) : List (List Char) :=
  extractAux l.length l

/-- The fuel is irrelevant as soon as it dominates the input length. -/
theorem extractAux_fuel_eq : ∀ (fuel₁ fuel₂ : Nat) (l : List Char),
    l.length ≤ fuel₁ → l.length ≤ fuel₂ → extractAux fuel₁ l = extractAux fuel₂ l
  | f1, f2, [], _, _ => by cases f1 <;> cases f2 <;> rfl
  | 0, _, c :: cs, h1, _ => by simp at h1
  | _ + 1, 0, c :: cs, _, h2 => by simp at h2
  | f1 + 1, f2 + 1, c :: cs, h1, h2 => by
    simp only [extractAux]
    cases hm : matchFileAt (c :: cs) with
    | none =>
      exact extractAux_fuel_eq f1 f2 cs (by simp at h1; omega) (by simp at h2; omega)
    | some pr =>
      obtain ⟨cap, rest⟩ := pr
      have hlt := matchFileAt_length_lt hm
      simp only [List.length_cons] at h1 h2 hlt
      show cap :: extractAux f1 rest = cap :: extractAux f2 rest
      rw [extractAux_fuel_eq f1 f2 rest (by omega) (by omega)]

/-- Unfolding step for `extractSourceFiles` on a non-empty input. -/
theorem extractSourceFiles_cons (c : Char) (cs : List Char) :
    extractSourceFiles (c :: cs) =
      match matchFileAt (c :: cs) with
      | some (cap, rest) => cap :: extractSourceFiles rest
      | none => extractSourceFiles cs := by
  unfold extractSourceFiles
  simp only [List.length_cons, extractAux]
  cases hm : matchFileAt (c :: cs) with
  | none => exact extractAux_fuel_eq _ _ cs (by omega) (by omega)
  | some pr =>
    obtain ⟨cap, rest⟩ := pr
    have hlt := matchFileAt_length_lt hm
    simp only [List.length_cons] at hlt
    show cap :: extractAux cs.length rest = cap :: extractAux rest.length rest
    rw [extractAux_fuel_eq cs.length rest.length rest (by omega) (by omega)]

/-! ## Basic lemmas about the string helpers -/

theorem starts_append_self (p q : List Char) : starts p (p ++ q) = true := by
  induction p with
  | nil => rfl
  | cons c cs ih => simp [starts, ih]

theorem starts_iff_append (p l : List Char) :
    starts p l = true ↔ ∃ r, l = p ++ r := by
  constructor
  · intro h
    induction p generalizing l with
    | nil => exact ⟨l, rfl⟩
    | cons c cs ih =>
      cases l with
      | nil => simp [starts] at h
      | cons x xs =>
        simp only [starts, Bool.and_eq_true, decide_eq_true_eq] at h
        obtain ⟨r, hr⟩ := ih xs h.2
        exact ⟨r, by simp [h.1, hr]⟩
  · rintro ⟨r, rfl⟩
    exact starts_append_self p r

/-! ## C1 / C3 : file selection -/

/-- **C1.** With vault content enabled and "current file only" off, the
selection of `scanVault` satisfies: every selected path starts with a
non-empty include filter; no selected path starts with any excluded folder;
and the selection equals the include filter applied first with the exclude
filter removing files from that result. -/
theorem scanVault_folder_filters (s : VaultLLMAssistantSettings)
    (allFiles : List TFile) (cur : Option TFile)
    (hctx : s.useVaultContent = true) (hoff : s.includeCurrentFileOnly = false) :
    (∀ f ∈ selectFiles s allFiles cur,
        s.includeFolder ≠ [] → starts s.includeFolder f.path = true) ∧
    (∀ f ∈ selectFiles s allFiles cur,
        ∀ d ∈ s.excludeFolder, starts d f.path = false) ∧
    selectFiles s allFiles cur =
      (if s.includeFolder ≠ [] then
          allFiles.filter (fun f => starts s.includeFolder f.path)
        else allFiles).filter
        (fun f => !(s.excludeFolder.any (fun d => starts d f.path))) := by
  have hsel : selectFiles s allFiles cur =
      (if s.includeFolder ≠ [] then
          allFiles.filter (fun f => starts s.includeFolder f.path)
        else allFiles).filter
        (fun f => !(s.excludeFolder.any (fun d => starts d f.path))) := by
    simp only [selectFiles, hoff, Bool.false_eq_true, if_false, folderFiltered]
    by_cases hexc : 0 < s.excludeFolder.length
    · rw [if_pos hexc]
    · rw [if_neg hexc]
      have hnil : s.excludeFolder = [] := by
        cases hfe : s.excludeFolder with
        | nil => rfl
        | cons a as => rw [hfe] at hexc; simp at hexc
      rw [hnil]
      simp
  refine ⟨?_, ?_, hsel⟩
  · intro f hf hinc
    rw [hsel] at hf
    have hf1 := (List.mem_filter.mp hf).1
    rw [if_pos hinc] at hf1
    exact (List.mem_filter.mp hf1).2
  · intro f hf d hd
    rw [hsel] at hf
    have hf2 := (List.mem_filter.mp hf).2
    simp only [Bool.not_eq_true', List.any_eq_false] at hf2
    simpa using hf2 d hd

def c1SettingsW : VaultLLMAssistantSettings :=
  { modelProvider := "gemini", model := "gemini-2.5-pro", useLocalLLM := false
    maxTokens := 2000, includeCurrentFileOnly := false
    includeFolder := "notes/".data, excludeFolder := ["notes/private/".data]
    generateTitlesWithLLM := true, useVaultContent := true, mode := "query" }

def c1FilesW : List TFile :=
  [⟨"notes/a.md".data, "A".data⟩,
   ⟨"notes/private/b.md".data, "B".data⟩,
   ⟨"other/c.md".data, "C".data⟩]

/-- Witness for C1 at a concrete configuration. -/
theorem scanVault_folder_filters_witness :
    selectFiles c1SettingsW c1FilesW none =
      (if c1SettingsW.includeFolder ≠ [] then
          c1FilesW.filter (fun f => starts c1SettingsW.includeFolder f.path)
        else c1FilesW).filter
        (fun f => !(c1SettingsW.excludeFolder.any (fun d => starts d f.path))) :=
  (scanVault_folder_filters c1SettingsW c1FilesW none rfl rfl).2.2

/-- **C3.** With "current file only" on and a current file supplied, the
selection is exactly that file (bypassing both folder filters), and the
context blob is built from that single document. -/
theorem scanVault_currentFileOnly (s : VaultLLMAssistantSettings)
    (allFiles : List TFile) (f : TFile)
    (hon : s.includeCurrentFileOnly = true) :
    selectFiles s allFiles (some f) = [f] ∧
    (s.useVaultContent = true → scanVault s allFiles (some f) [] = blockOf f) := by
  constructor
  · simp [selectFiles, hon]
  · intro hctx
    simp [scanVault, hctx, selectFiles, hon, blocksOf]

def c3SettingsW : VaultLLMAssistantSettings :=
  { modelProvider := "gemini", model := "gemini-2.5-pro", useLocalLLM := false
    maxTokens := 2000, includeCurrentFileOnly := true
    includeFolder := "notes/".data, excludeFolder := ["secret/".data]
    generateTitlesWithLLM := true, useVaultContent := true, mode := "query" }

/-- Witness for C3: the current file is selected even though its path starts
with the excluded folder `secret/` and does not start with the include
filter `notes/`. -/
theorem scanVault_currentFileOnly_witness :
    selectFiles c3SettingsW [] (some ⟨"secret/x.md".data, "X".data⟩) =
      [⟨"secret/x.md".data, "X".data⟩] ∧
    scanVault c3SettingsW [] (some ⟨"secret/x.md".data, "X".data⟩) [] =
      blockOf ⟨"secret/x.md".data, "X".data⟩ := by
  have h := scanVault_currentFileOnly c3SettingsW []
    ⟨"secret/x.md".data, "X".data⟩ rfl
  exact ⟨h.1, h.2 rfl⟩

/-! ## C2 : adapter failures come back as prefixed strings -/

/-- **C2.** Every failing invocation of `queryGPT`, `queryGemini` or
`queryLMStudio` — a rejected request (with or without a status) or a Gemini
body carrying an inline error object — returns (rather than throws) a string
beginning with the respective recognizable prefix. -/
theorem adapter_error_prefixes (e1 e2 e3 : HttpErr) (r : GeminiResp)
    (m : Option (List Char)) (hc : r.candidates = []) (hm : r.err = some m) :
    starts "Error querying OpenAI: ".data (queryGPT (.error e1)) = true ∧
    starts "Error querying Gemini: ".data (queryGemini (.error e2)) = true ∧
    starts "Error querying LM Studio: ".data (queryLMStudio (.error e3)) = true ∧
    starts "Gemini API Error: ".data (queryGemini (.ok r)) = true := by
  refine ⟨starts_append_self _ _, starts_append_self _ _, starts_append_self _ _, ?_⟩
  cases r with
  | mk cands err =>
    simp only at hc hm
    subst hc; subst hm
    exact starts_append_self _ _

/-- Witness for C2: a 401 rejection, a transport error without status, a
refused local connection, and an inline Gemini error body. -/
theorem adapter_error_prefixes_witness :
    starts "Error querying OpenAI: ".data
      (queryGPT (.error ⟨some 401, none, none⟩)) = true ∧
    starts "Error querying Gemini: ".data
      (queryGemini (.error ⟨none, some "network down".data, none⟩)) = true ∧
    starts "Error querying LM Studio: ".data
      (queryLMStudio (.error ⟨none, some "Connection refused".data, none⟩)) = true ∧
    starts "Gemini API Error: ".data
      (queryGemini (.ok ⟨[], some (some "quota exceeded".data)⟩)) = true :=
  adapter_error_prefixes ⟨some 401, none, none⟩
    ⟨none, some "network down".data, none⟩
    ⟨none, some "Connection refused".data, none⟩
    ⟨[], some (some "quota exceeded".data)⟩
    (some "quota exceeded".data) rfl rfl

/-! ## C10 : unknown provider -/

/-- **C10.** With `useLocalLLM` off and a provider that is neither `gpt` nor
`gemini`, `queryLLM` returns exactly `Error: Unknown model provider`, and the
presentation boundary's prefix test classifies that string as a successful
answer (not an error). -/
theorem queryLLM_unknown_provider (s : VaultLLMAssistantSettings)
    (lmResp gptResp gemResp : List Char)
    (h1 : s.useLocalLLM = false) (h2 : s.modelProvider ≠ "gpt")
    (h3 : s.modelProvider ≠ "gemini") :
    queryLLM s lmResp gptResp gemResp = "Error: Unknown model provider".data ∧
    isErrorResponse (queryLLM s lmResp gptResp gemResp) = false := by
  have hq : queryLLM s lmResp gptResp gemResp =
      "Error: Unknown model provider".data := by
    simp [queryLLM, h1, h2, h3]
  refine ⟨hq, ?_⟩
  rw [hq]
  decide

def c10SettingsW : VaultLLMAssistantSettings :=
  { modelProvider := "claude", model := "x", useLocalLLM := false
    maxTokens := 2000, includeCurrentFileOnly := false
    includeFolder := [], excludeFolder := []
    generateTitlesWithLLM := true, useVaultContent := true, mode := "query" }

/-- Witness for C10 at the provider string `claude`. -/
theorem queryLLM_unknown_provider_witness :
    queryLLM c10SettingsW [] [] [] = "Error: Unknown model provider".data ∧
    isErrorResponse (queryLLM c10SettingsW [] [] []) = false :=
  queryLLM_unknown_provider c10SettingsW [] [] [] rfl
    (by decide) (by decide)

/-! ## C6 : link normalization (corrected) -/

/-- **C6 (counterexample).** The claim says normalizing the
`[[a/b.md#My Section]]` reference yields the fragment `my-section`; in the
code the lower-casing/whitespace-collapsing applies only to the `" > "`
notation, so the `#` fragment is kept verbatim as `My Section`. -/
theorem normalizeHref_hash_counterexample :
    wikiInners "see [[a/b.md#My Section]]".data = ["a/b.md#My Section".data] ∧
    normalizeHref "a/b.md#My Section".data =
      ("a/b.md".data, "#My Section".data) ∧
    "#My Section".data ≠ "#my-section".data ∧
    "#My Section".data ≠ "my-section".data := by
  refine ⟨by decide, by decide, by decide, by decide⟩

/-- **C6 (amended).** For the `[[a/b.md#My Section]]` reference the
normalization yields path `a/b.md` and the fragment `#My Section` kept
verbatim; lower-casing and whitespace-to-`-` collapsing happen only for the
`"path > Section Name"` notation (`a/b.md > My Section` yields
`#my-section`); a plain `[[a/b.md]]` reference yields no fragment. -/
theorem normalizeHref_amended :
    normalizeHref "a/b.md#My Section".data =
      ("a/b.md".data, "#My Section".data) ∧
    normalizeHref "a/b.md > My Section".data =
      ("a/b.md".data, "#my-section".data) ∧
    normalizeHref "a/b.md".data = ("a/b.md".data, []) := by
  refine ⟨by decide, by decide, by decide⟩

/-! ## C7 : token-limit parameter selection per catalog entry -/

/-- **C7.** For every model in the static OpenAI catalog, the request body
of `queryGPT` carries: no token-limit field at all for `/v1/responses`
models; `max_completion_tokens = maxTokens` (and no `max_tokens`) when the
entry sets `useMaxCompletionTokens`; and `max_tokens = maxTokens` otherwise.
The pair is `(max_completion_tokens?, max_tokens?)`. -/
theorem gptBodyTokenParams_catalog (maxTokens : Nat) (m : OpenAIModel)
    (hm : m ∈ OPENAI_MODELS) :
    (m.endpoint = some "/v1/responses" →
      gptBodyTokenParams m.id maxTokens = (none, none)) ∧
    (m.useMaxCompletionTokens = true →
      gptBodyTokenParams m.id maxTokens = (some maxTokens, none)) ∧
    (m.endpoint ≠ some "/v1/responses" → m.useMaxCompletionTokens = false →
      gptBodyTokenParams m.id maxTokens = (none, some maxTokens)) := by
  fin_cases hm <;>
    exact ⟨fun h => by first | rfl | simp_all,
           fun h => by first | rfl | simp_all,
           fun h h2 => by first | rfl | simp_all⟩

/-- Witness for C7 at the three catalog shapes: a `/v1/responses` model, a
`max_completion_tokens` model and a plain `max_tokens` model. -/
theorem gptBodyTokenParams_catalog_witness :
    gptBodyTokenParams "gpt-5.2-pro" 2000 = (none, none) ∧
    gptBodyTokenParams "o1" 2000 = (some 2000, none) ∧
    gptBodyTokenParams "gpt-4o" 2000 = (none, some 2000) := by
  refine ⟨?_, ?_, ?_⟩
  · exact (gptBodyTokenParams_catalog 2000
      { id := "gpt-5.2-pro", name := "GPT-5.2 Pro", endpoint := some "/v1/responses" }
      (by decide)).1 rfl
  · exact (gptBodyTokenParams_catalog 2000
      { id := "o1", name := "o1", useMaxCompletionTokens := true }
      (by decide)).2.1 rfl
  · exact (gptBodyTokenParams_catalog 2000
      { id := "gpt-4o", name := "GPT-4o" }
      (by decide)).2.2 (by decide) rfl

/-! ## C8 : note titles with LLM titling disabled (corrected) -/

/-- **C8 (counterexample).** The claim says every note-creation flow with
LLM titling disabled titles the note with the 50-character-truncated query;
but in the `QueryModal` create flow the date-stamped default is used, which
differs from the (short, hence untruncated) query `some topic`. -/
theorem modalNoteTitle_counterexample :
    modalNoteTitle false none "2026-10-11".data =
      "LLM response 2026-10-11".data ∧
    "LLM response 2026-10-11".data ≠ "some topic".data ∧
    "LLM response 2026-10-11".data ≠ trimChars "some topic".data := by
  refine ⟨by decide, by decide, by decide⟩

/-- **C8 (amended).** With LLM titling disabled, the sidebar view's
Create-note flow titles the note with the trimmed query, truncated at the
50-character budget with `...` appended exactly when the query is longer;
the `QueryModal` create flow instead always uses the date-stamped default
title. -/
theorem noteTitle_amended (query dateStamp : List Char) (llmTitle : List Char)
    (llmTitleM : Option (List Char)) :
    (50 < query.length →
      viewNoteTitle false llmTitle query =
        trimChars (query.take 50) ++ "...".data) ∧
    (query.length ≤ 50 → viewNoteTitle false llmTitle query = trimChars query) ∧
    modalNoteTitle false llmTitleM dateStamp = "LLM response ".data ++ dateStamp := by
  refine ⟨fun h => ?_, fun h => ?_, ?_⟩
  · simp [viewNoteTitle, h]
  · simp [viewNoteTitle, Nat.not_lt.mpr h]
  · simp [modalNoteTitle]

/-- Witness for C8 (amended): a 59-character query is truncated with the
ellipsis marker, a short query is only trimmed, and the modal flow gets the
date default. -/
theorem noteTitle_amended_witness :
    viewNoteTitle false []
        "a query that is really quite long and it exceeds the budget".data =
      trimChars ("a query that is really quite long and it exceeds the budget".data.take 50)
        ++ "...".data ∧
    viewNoteTitle false [] "short query".data = trimChars "short query".data ∧
    modalNoteTitle false none "2026-10-11".data =
      "LLM response ".data ++ "2026-10-11".data := by
  refine ⟨?_, ?_, ?_⟩
  · exact (noteTitle_amended
      "a query that is really quite long and it exceeds the budget".data
      "2026-10-11".data [] none).1 (by decide)
  · exact (noteTitle_amended "short query".data "2026-10-11".data [] none).2.1
      (by decide)
  · exact (noteTitle_amended "short query".data "2026-10-11".data [] none).2.2

/-! ## C4 : the `FILE: ` wire contract between `scanVault` and
`extractSourceFiles` -/

theorem matchWordE_self_append : ∀ (p r : List Char),
    matchWordE p (p ++ r) = some r
  | [], _ => rfl
  | c :: cs, r => by simp [matchWordE, matchWordE_self_append cs r]

theorem matchWordE_starts {p l r : List Char} (h : matchWordE p l = some r) :
    starts p l = true := by
  induction p generalizing l with
  | nil => cases l <;> simp [starts]
  | cons x xs ih =>
    cases l with
    | nil => simp [matchWordE] at h
    | cons c cs =>
      simp only [matchWordE] at h
      split at h
      · rename_i hx
        simp [starts, hx, ih h]
      · exact absurd h (by simp)

theorem matchFileAt_none_of_not_starts {l : List Char}
    (h : starts "FILE: ".data l = false) : matchFileAt l = none := by
  unfold matchFileAt
  cases hw : matchWordE "FILE: ".data l with
  | none => rfl
  | some r => rw [matchWordE_starts hw] at h; exact absurd h (by simp)

/-- A token free of newlines that matches across a `\n` boundary already
matches before it. -/
theorem starts_stops_at_nl {tok : List Char} (hnl : '\n' ∉ tok) :
    ∀ (l r : List Char), starts tok (l ++ '\n' :: r) = true →
      starts tok l = true := by
  induction tok with
  | nil => intro l r _; rfl
  | cons t ts ih =>
    intro l r h
    cases l with
    | nil =>
      simp only [List.nil_append, starts, Bool.and_eq_true,
        decide_eq_true_eq] at h
      exact absurd (h.1 ▸ List.mem_cons_self t ts) hnl
    | cons x xs =>
      simp only [List.cons_append, starts, Bool.and_eq_true,
        decide_eq_true_eq] at h ⊢
      exact ⟨h.1, ih (fun hm => hnl (List.mem_cons_of_mem t hm)) xs r h.2⟩

/-- `noMatchIn tok a b`: no non-empty suffix of `a`, continued by `b`, starts
with `tok` — i.e. the scan of `a ++ b` finds no match inside `a`. -/
def noMatchIn (tok : List Char) : List Char → List Char → Bool
  | [], _ => true
  | c :: cs, b => !(starts tok ((c :: cs) ++ b)) && noMatchIn tok cs b

theorem extract_skip : ∀ (a b : List Char),
    noMatchIn "FILE: ".data a b = true →
    extractSourceFiles (a ++ b) = extractSourceFiles b
  | [], _, _ => rfl
  | c :: cs, b, h => by
    simp only [noMatchIn, Bool.and_eq_true, Bool.not_eq_true',
      List.cons_append] at h
    rw [List.cons_append, extractSourceFiles_cons,
      matchFileAt_none_of_not_starts h.1]
    exact extract_skip cs b h.2

/-- A segment that is token-free and ends in a blank line blocks every match
that would start inside it. -/
theorem noMatchIn_of_nl2 (b : List Char) : ∀ (x : List Char),
    hasTok "FILE: ".data x = false →
    noMatchIn "FILE: ".data (x ++ "\n\n".data) b = true
  | [], _ => rfl
  | c :: cs, hx => by
    simp only [hasTok, Bool.or_eq_false_iff] at hx
    show noMatchIn "FILE: ".data (c :: (cs ++ "\n\n".data)) b = true
    rw [noMatchIn, noMatchIn_of_nl2 b cs hx.2, Bool.and_true, Bool.not_eq_true']
    cases hs : starts "FILE: ".data ((c :: (cs ++ "\n\n".data)) ++ b) with
    | false => rfl
    | true =>
      exfalso
      have h1 : starts "FILE: ".data ((c :: cs) ++ ['\n']) = true := by
        apply starts_stops_at_nl (by decide) ((c :: cs) ++ ['\n']) b
        have hassoc : ((c :: cs) ++ ['\n']) ++ '\n' :: b =
            (c :: (cs ++ "\n\n".data)) ++ b := by
          simp
        rw [hassoc]; exact hs
      have h2 : starts "FILE: ".data (c :: cs) = true :=
        starts_stops_at_nl (by decide) (c :: cs) [] h1
      rw [hx.1] at h2
      exact absurd h2 (by simp)

theorem takeWhile_no_nl : ∀ (p z : List Char), '\n' ∉ p →
    (p ++ '\n' :: z).takeWhile (fun c => c ≠ '\n') = p
  | [], z, _ => by simp
  | x :: xs, z, h => by
    have hx : ¬(x = '\n') := fun he => h (he ▸ List.mem_cons_self x xs)
    rw [List.cons_append, List.takeWhile_cons,
      if_pos (show decide (x ≠ '\n') = true by simp [hx]),
      takeWhile_no_nl xs z (fun hm => h (List.mem_cons_of_mem x hm))]

theorem dropWhile_no_nl : ∀ (p z : List Char), '\n' ∉ p →
    (p ++ '\n' :: z).dropWhile (fun c => c ≠ '\n') = '\n' :: z
  | [], z, _ => by simp
  | x :: xs, z, h => by
    have hx : ¬(x = '\n') := fun he => h (he ▸ List.mem_cons_self x xs)
    rw [List.cons_append, List.dropWhile_cons,
      if_pos (show decide (x ≠ '\n') = true by simp [hx])]
    exact dropWhile_no_nl xs z (fun hm => h (List.mem_cons_of_mem x hm))

/-- A block head `FILE: <path>` followed by a newline yields exactly the path
as the next capture. -/
theorem extract_fileblock (p z : List Char) (hp : p ≠ []) (hnl : '\n' ∉ p) :
    extractSourceFiles ("FILE: ".data ++ (p ++ '\n' :: z)) =
      p :: extractSourceFiles ('\n' :: z) := by
  have hm : matchFileAt ("FILE: ".data ++ (p ++ '\n' :: z)) =
      some (p, '\n' :: z) := by
    unfold matchFileAt
    rw [matchWordE_self_append]
    show (if (p ++ '\n' :: z).takeWhile (fun c => c ≠ '\n') = [] then none
          else some ((p ++ '\n' :: z).takeWhile (fun c => c ≠ '\n'),
            (p ++ '\n' :: z).dropWhile (fun c => c ≠ '\n'))) =
        some (p, '\n' :: z)
    rw [takeWhile_no_nl p z hnl, dropWhile_no_nl p z hnl, if_neg hp]
  show extractSourceFiles ('F' :: ("ILE: ".data ++ (p ++ '\n' :: z))) = _
  rw [extractSourceFiles_cons]
  have hm2 : matchFileAt ('F' :: ("ILE: ".data ++ (p ++ '\n' :: z))) =
      some (p, '\n' :: z) := hm
  rw [hm2]

theorem hasTok_cons_nl (cs : List Char) :
    hasTok "FILE: ".data ('\n' :: cs) = hasTok "FILE: ".data cs := rfl

/-- The blocks of a well-formed file list extract to exactly the paths, in
order, duplicates preserved. -/
theorem extract_blocks : ∀ (files : List TFile),
    (∀ f ∈ files, f.path ≠ [] ∧ '\n' ∉ f.path ∧
      hasTok "FILE: ".data f.content = false) →
    extractSourceFiles (blocksOf files) = files.map TFile.path
  | [], _ => rfl
  | f :: fs, h => by
    obtain ⟨hp, hnl, hc⟩ := h f (List.mem_cons_self f fs)
    have hrest := fun g hg => h g (List.mem_cons_of_mem f hg)
    have heq : blocksOf (f :: fs) =
        "FILE: ".data ++
          (f.path ++ '\n' :: ('\n' :: (f.content ++ '\n' :: '\n' :: blocksOf fs))) := by
      show blockOf f ++ blocksOf fs = _
      simp [blockOf]
    rw [heq, extract_fileblock _ _ hp hnl]
    congr 1
    have hform : ('\n' :: ('\n' :: (f.content ++ '\n' :: '\n' :: blocksOf fs))) =
        (('\n' :: '\n' :: f.content) ++ "\n\n".data) ++ blocksOf fs := by
      simp
    have htok : hasTok "FILE: ".data ('\n' :: '\n' :: f.content) = false := by
      rw [hasTok_cons_nl, hasTok_cons_nl]; exact hc
    rw [hform, extract_skip _ _ (noMatchIn_of_nl2 _ _ htok)]
    exact extract_blocks fs hrest

/-- **C4.** With vault content enabled, the context blob is the `FILE: `
blocks of the selected documents in order (with the additional context and a
blank line prepended when non-empty), and `extractSourceFiles` recovers
exactly the selected documents' paths, in order, duplicates preserved —
provided no document content and no additional context contains the marker
`FILE: ` (vault file paths are non-empty and newline-free). -/
theorem scanVault_extract_roundtrip (s : VaultLLMAssistantSettings)
    (allFiles : List TFile) (cur : Option TFile) (extra : List Char)
    (hctx : s.useVaultContent = true)
    (hfiles : ∀ f ∈ selectFiles s allFiles cur,
      f.path ≠ [] ∧ '\n' ∉ f.path ∧ hasTok "FILE: ".data f.content = false)
    (hextra : hasTok "FILE: ".data extra = false) :
    scanVault s allFiles cur extra =
      (if extra = [] then [] else extra ++ "\n\n".data) ++
        blocksOf (selectFiles s allFiles cur) ∧
    extractSourceFiles (scanVault s allFiles cur extra) =
      (selectFiles s allFiles cur).map TFile.path := by
  have hshape : scanVault s allFiles cur extra =
      (if extra = [] then [] else extra ++ "\n\n".data) ++
        blocksOf (selectFiles s allFiles cur) := by
    rw [scanVault, hctx]
    by_cases he : extra = [] <;> simp [he]
  refine ⟨hshape, ?_⟩
  rw [hshape]
  by_cases he : extra = []
  · rw [if_pos he, List.nil_append]
    exact extract_blocks _ hfiles
  · rw [if_neg he, extract_skip _ _ (noMatchIn_of_nl2 _ _ hextra)]
    exact extract_blocks _ hfiles

def c4SettingsW : VaultLLMAssistantSettings :=
  { modelProvider := "gemini", model := "gemini-2.5-pro", useLocalLLM := false
    maxTokens := 2000, includeCurrentFileOnly := false
    includeFolder := [], excludeFolder := []
    generateTitlesWithLLM := true, useVaultContent := true, mode := "query" }

def c4FilesW : List TFile :=
  [⟨"a.md".data, "x\ny".data⟩, ⟨"b/c.md".data, "z".data⟩,
   ⟨"a.md".data, "w".data⟩]

/-- Witness for C4: three documents with a duplicated path and multi-line
content, plus a non-empty additional context. -/
theorem scanVault_extract_roundtrip_witness :
    extractSourceFiles (scanVault c4SettingsW c4FilesW none "extra ctx".data) =
      ["a.md".data, "b/c.md".data, "a.md".data] :=
  (scanVault_extract_roundtrip c4SettingsW c4FilesW none "extra ctx".data
    rfl (by decide) (by decide)).2

/-! ## C5 : markdown fence stripping (corrected) -/

/-- The list reaches a non-whitespace character before any newline (and is
non-empty).  Under this condition the greedy `\s*\n` of the opener regex
consumes exactly the opener's own newline. -/
def nonWsLead : List Char → Bool
  | [] => false
  | c :: cs => if c = '\n' then false else if isWs c then nonWsLead cs else true

theorem nonWsLead_append {I : List Char} (t : List Char)
    (h : nonWsLead I = true) : nonWsLead (I ++ t) = true := by
  induction I with
  | nil => simp [nonWsLead] at h
  | cons c cs ih =>
    simp only [nonWsLead] at h
    show nonWsLead (c :: (cs ++ t)) = true
    simp only [nonWsLead]
    split at h
    · exact absurd h (by simp)
    · rename_i h1
      by_cases h2 : isWs c = true
      · rw [if_pos h2] at h
        rw [if_neg h1, if_pos h2]
        exact ih h
      · rw [if_neg h1, if_neg h2]

theorem dropWsNl_none_of_nonWsLead : ∀ (Y : List Char),
    nonWsLead Y = true → dropWsNl Y = none
  | [], h => by simp [nonWsLead] at h
  | c :: cs, h => by
    simp only [nonWsLead] at h
    by_cases hc : c = '\n'
    · rw [if_pos hc] at h; exact absurd h (by simp)
    · rw [if_neg hc] at h
      by_cases hw : isWs c = true
      · rw [if_pos hw] at h
        rw [dropWsNl, if_pos hw, dropWsNl_none_of_nonWsLead cs h, if_neg hc]
      · rw [if_neg hw] at h
        rw [dropWsNl, if_neg hw]

theorem dropWsNl_cons_nl {Y : List Char} (hY : dropWsNl Y = none) :
    dropWsNl ('\n' :: Y) = some Y := by
  rw [dropWsNl, if_pos (by decide : isWs '\n' = true), hY,
    if_pos (rfl : '\n' = '\n')]

/-- Case-insensitive literal matching succeeds on any spelling whose
lower-casing agrees with the pattern's. -/
theorem matchWord_of_map_toLower : ∀ (p w : List Char),
    w.map Char.toLower = p.map Char.toLower →
    ∀ (r : List Char), matchWord p (w ++ r) = some r
  | [], [], _, r => rfl
  | [], _ :: _, h, _ => by simp at h
  | _ :: _, [], h, _ => by simp at h
  | p0 :: ps, w0 :: ws, h, r => by
    simp only [List.map_cons, List.cons.injEq] at h
    rw [List.cons_append, matchWord,
      if_pos (show lcEq p0 w0 = true by unfold lcEq; rw [h.1]; simp),
      matchWord_of_map_toLower ps ws h.2 r]

/-- Reduce `dropOpener` past the three backticks and the (case-insensitive)
`m`, leaving the regex's `d`/`arkdown` alternation. -/
theorem dropOpener_cons (m0 : Char) (rest : List Char)
    (hm : m0.toLower = 'm') :
    dropOpener ('`' :: '`' :: '`' :: m0 :: rest) =
      (match matchWord "d".data rest with
       | some r => some r
       | none => matchWord "arkdown".data rest) := by
  show (if '`' = '`' ∧ '`' = '`' ∧ '`' = '`' ∧ lcEq m0 'm' = true then
        match matchWord "d".data rest with
        | some r => some r
        | none => matchWord "arkdown".data rest
       else none) = _
  rw [if_pos ⟨rfl, rfl, rfl, by unfold lcEq; rw [hm]; decide⟩]

/-- `dropOpener` on a `` ```md ``-spelled opener (any casing). -/
theorem dropOpener_md (m0 d0 : Char) (X : List Char)
    (hm : m0.toLower = 'm') (hd : d0.toLower = 'd') :
    dropOpener ('`' :: '`' :: '`' :: m0 :: d0 :: X) = some X := by
  rw [dropOpener_cons m0 _ hm]
  have h1 : matchWord "d".data (d0 :: X) = some X := by
    show (if lcEq 'd' d0 = true then matchWord [] X else none) = some X
    rw [if_pos (by unfold lcEq; rw [hd]; decide)]
    rfl
  rw [h1]

/-- `dropOpener` on a `` ```markdown ``-spelled opener (any casing): the `d`
alternative fails on the `a` and the `arkdown` alternative consumes the
rest of the word. -/
theorem dropOpener_markdown (m0 : Char) (ow X : List Char)
    (hm : m0.toLower = 'm')
    (how : ow.map Char.toLower = "arkdown".data) :
    dropOpener ('`' :: '`' :: '`' :: m0 :: (ow ++ X)) = some X := by
  rw [dropOpener_cons m0 _ hm]
  obtain ⟨a0, ow2, rfl⟩ : ∃ a0 ow2, ow = a0 :: ow2 := by
    cases ow with
    | nil => simp at how
    | cons a as => exact ⟨a, as, rfl⟩
  simp only [List.map_cons, List.cons.injEq] at how
  have hno : matchWord "d".data ((a0 :: ow2) ++ X) = none := by
    show (if lcEq 'd' a0 = true then matchWord [] (ow2 ++ X) else none) = none
    rw [if_neg (by unfold lcEq; rw [how.1]; decide)]
  rw [hno]
  show matchWord "arkdown".data ((a0 :: ow2) ++ X) = some X
  apply matchWord_of_map_toLower
  have hark : ("arkdown".data).map Char.toLower = "arkdown".data := by decide
  rw [hark]
  simp [how.1, how.2]

/-- Step 1 on a well-formed fenced input with any accepted opener spelling:
exactly the opener line is removed. -/
theorem stripOpen_opener (ow I t : List Char)
    (how : ow.map Char.toLower = "md".data ∨
      ow.map Char.toLower = "markdown".data)
    (h1 : nonWsLead I = true) :
    stripOpen ('`' :: '`' :: '`' :: (ow ++ '\n' :: (I ++ t))) = I ++ t := by
  have hws := dropWsNl_cons_nl (dropWsNl_none_of_nonWsLead _ (nonWsLead_append t h1))
  have hdo : dropOpener ('`' :: '`' :: '`' :: (ow ++ '\n' :: (I ++ t))) =
      some ('\n' :: (I ++ t)) := by
    rcases how with how | how
    · cases ow with
      | nil => simp at how
      | cons m0 ow1 =>
        cases ow1 with
        | nil => simp at how
        | cons d0 ow2 =>
          cases ow2 with
          | cons x xs => simp at how
          | nil =>
            simp only [List.map_cons, List.map_nil, List.cons.injEq,
              and_true] at how
            show dropOpener
              ('`' :: '`' :: '`' :: m0 :: d0 :: '\n' :: (I ++ t)) = _
            exact dropOpener_md m0 d0 _ how.1 how.2
    · cases ow with
      | nil => simp at how
      | cons m0 ow1 =>
        simp only [List.map_cons, List.cons.injEq] at how
        show dropOpener
          ('`' :: '`' :: '`' :: m0 :: (ow1 ++ '\n' :: (I ++ t))) = _
        exact dropOpener_markdown m0 ow1 _ how.1 how.2
  unfold stripOpen
  rw [hdo]
  show (match dropWsNl ('\n' :: (I ++ t)) with
        | some r2 => r2
        | none => '`' :: '`' :: '`' :: (ow ++ '\n' :: (I ++ t))) = I ++ t
  rw [hws]

theorem dropTrailWs_last_nonws (l : List Char) (c : Char)
    (hc : isWs c = false) : dropTrailWs (l ++ [c]) = l ++ [c] := by
  unfold dropTrailWs
  rw [List.reverse_append]
  have h1 : ([c] : List Char).reverse = [c] := rfl
  rw [h1, List.singleton_append, List.dropWhile_cons, hc]
  simp

theorem endsTok_iff {pat t : List Char} :
    endsTok pat t = true ↔ ∃ u, t = u ++ pat := by
  unfold endsTok
  rw [starts_iff_append pat.reverse t.reverse]
  constructor
  · rintro ⟨r, hr⟩
    refine ⟨r.reverse, ?_⟩
    have := congrArg List.reverse hr
    simpa using this
  · rintro ⟨u, rfl⟩
    exact ⟨u.reverse, by simp⟩

/-- Step 2 on a well-formed fenced input: exactly the `\n```` ``` ````
suffix is removed. -/
theorem stripCloser_lit (I : List Char) :
    stripCloser (I ++ "\n```".data) = I := by
  unfold stripCloser
  have hd : dropTrailWs (I ++ "\n```".data) = I ++ "\n```".data := by
    have hform : I ++ "\n```".data = (I ++ "\n``".data) ++ ['`'] := by simp
    rw [hform, dropTrailWs_last_nonws _ _ (by decide), ← hform]
  rw [hd, if_pos (endsTok_iff.mpr ⟨I, rfl⟩)]
  have hlen : (I ++ "\n```".data).length - 4 = I.length := by
    simp [List.length_append]
  rw [hlen]
  have : ("\n```".data : List Char) = ['\n', '`', '`', '`'] := rfl
  rw [this, List.take_left]

theorem hasTok_of_starts {tok l : List Char} (h : starts tok l = true)
    (ht : tok ≠ []) : hasTok tok l = true := by
  cases l with
  | nil =>
    cases tok with
    | nil => exact absurd rfl ht
    | cons t ts => simp [starts] at h
  | cons c cs => simp [hasTok, h]

theorem starts_extend {tok l : List Char} (b : List Char)
    (h : starts tok l = true) : starts tok (l ++ b) = true := by
  obtain ⟨r, rfl⟩ := (starts_iff_append tok l).mp h
  rw [List.append_assoc]
  exact starts_append_self _ _

theorem hasTok_append_left {tok a : List Char} (b : List Char)
    (h : hasTok tok a = true) : hasTok tok (a ++ b) = true := by
  induction a with
  | nil =>
    simp only [hasTok] at h
    cases tok with
    | nil => cases b <;> simp [hasTok, starts]
    | cons t ts => simp [starts] at h
  | cons c cs ih =>
    rw [List.cons_append, hasTok]
    simp only [hasTok, Bool.or_eq_true] at h
    rcases h with h | h
    · have hx := starts_extend b h
      rw [List.cons_append] at hx
      simp [hx]
    · simp [ih h]

theorem hasTok_append_right {tok : List Char} (a : List Char)
    {b : List Char} (h : hasTok tok b = true) : hasTok tok (a ++ b) = true := by
  induction a with
  | nil => simpa using h
  | cons c cs ih => simp [List.cons_append, hasTok, ih]

theorem dropTrailWs_splits (l : List Char) : ∃ w, l = dropTrailWs l ++ w := by
  refine ⟨(l.reverse.takeWhile isWs).reverse, ?_⟩
  unfold dropTrailWs
  have h := List.takeWhile_append_dropWhile (p := isWs) (l := l.reverse)
  have h2 := congrArg List.reverse h
  simp only [List.reverse_append, List.reverse_reverse] at h2
  exact h2.symm

theorem starts_ticks_of_dropOpener {l r : List Char}
    (h : dropOpener l = some r) : starts "```".data l = true := by
  unfold dropOpener at h
  split at h
  · rename_i a b c d rest
    split at h
    · rename_i hcond
      obtain ⟨ha, hb, hc, _⟩ := hcond
      subst ha; subst hb; subst hc
      simp [starts]
    · exact absurd h (by simp)
  · exact absurd h (by simp)

theorem dropOpener_none_of_no_ticks {l : List Char}
    (h : hasTok "```".data l = false) : dropOpener l = none := by
  cases hd : dropOpener l with
  | none => rfl
  | some r =>
    rw [hasTok_of_starts (starts_ticks_of_dropOpener hd) (by decide)] at h
    exact absurd h (by simp)

theorem findOpen_none_of_no_ticks : ∀ (l : List Char),
    hasTok "```".data l = false → findOpen l = none
  | [], _ => rfl
  | c :: cs, h => by
    simp only [hasTok, Bool.or_eq_false_iff] at h
    rw [findOpen, dropOpener_none_of_no_ticks (by simp [hasTok, h.1, h.2]),
      findOpen_none_of_no_ticks cs h.2]
    rfl

theorem stripOpen_id_of_no_ticks {l : List Char}
    (h : hasTok "```".data l = false) : stripOpen l = l := by
  rw [stripOpen, dropOpener_none_of_no_ticks h]

theorem stripCloser_id_of_no_ticks {l : List Char}
    (h : hasTok "```".data l = false) : stripCloser l = l := by
  unfold stripCloser
  cases he : endsTok "\n```".data (dropTrailWs l) with
  | false =>
    show (if endsTok "\n```".data (dropTrailWs l) = true then
        List.take ((dropTrailWs l).length - 4) (dropTrailWs l) else l) = l
    rw [he]
    simp
  | true =>
    exfalso
    obtain ⟨u, hu⟩ := endsTok_iff.mp he
    obtain ⟨w, hw⟩ := dropTrailWs_splits l
    have htok : hasTok "```".data (dropTrailWs l) = true := by
      rw [hu]
      refine hasTok_append_right u ?_
      decide
    rw [hw, hasTok_append_left w htok] at h
    exact absurd h (by simp)

/-- **C5 (counterexample).** On input whose interior contains another fence
opener, the third step of `cleanMarkdownResponse` discards everything before
that interior opener: the result is `B`, not the interior
`A\n```` ```md ````\nB` that the claim requires. -/
theorem cleanMarkdownResponse_counterexample :
    cleanMarkdownResponse "```md\nA\n```md\nB\n```".data = "B".data ∧
    "B".data ≠ "A\n```md\nB".data ∧ "B".data ≠ "A\n```md\nB\n".data := by
  refine ⟨by decide, by decide, by decide⟩

/-- **C5 (amended).** If the input is `opener ++ interior ++ closer` where
the opener line is three backticks plus any case-insensitive spelling of
`md` or `markdown` plus a newline, the closer is a final `\n```` ``` ````,
the interior reaches a non-whitespace character before any newline, and the
interior contains a fence opener at most at its very start, then
`cleanMarkdownResponse` returns exactly the interior; and an input with no
```` ``` ```` at all is returned unchanged. -/
theorem cleanMarkdownResponse_amended (ow I l : List Char)
    (how : ow.map Char.toLower = "md".data ∨
      ow.map Char.toLower = "markdown".data)
    (h1 : nonWsLead I = true)
    (h2 : findOpen I = none ∨ findOpen I = some 0)
    (hl : hasTok "```".data l = false) :
    cleanMarkdownResponse
      ('`' :: '`' :: '`' :: (ow ++ '\n' :: (I ++ "\n```".data))) = I ∧
    cleanMarkdownResponse l = l := by
  constructor
  · simp only [cleanMarkdownResponse]
    rw [stripOpen_opener ow I "\n```".data how h1, stripCloser_lit I]
    rcases h2 with h2 | h2 <;> rw [h2]
    simp
  · simp only [cleanMarkdownResponse]
    rw [stripOpen_id_of_no_ticks hl, stripCloser_id_of_no_ticks hl,
      findOpen_none_of_no_ticks l hl]

/-- Witness for C5 (amended): the `md` spelling, the mixed-case `Markdown`
spelling, and a fence-free input. -/
theorem cleanMarkdownResponse_amended_witness :
    cleanMarkdownResponse "```md\nhello\nworld\n```".data =
      "hello\nworld".data ∧
    cleanMarkdownResponse "```Markdown\nhello\nworld\n```".data =
      "hello\nworld".data ∧
    cleanMarkdownResponse "no fences here".data = "no fences here".data := by
  refine ⟨?_, ?_, ?_⟩
  · exact (cleanMarkdownResponse_amended "md".data "hello\nworld".data
      "no fences here".data (Or.inl (by decide)) (by decide)
      (Or.inl (by decide)) (by decide)).1
  · exact (cleanMarkdownResponse_amended "Markdown".data "hello\nworld".data
      "no fences here".data (Or.inr (by decide)) (by decide)
      (Or.inl (by decide)) (by decide)).1
  · exact (cleanMarkdownResponse_amended "md".data "hello\nworld".data
      "no fences here".data (Or.inl (by decide)) (by decide)
      (Or.inl (by decide)) (by decide)).2

/-! ## C9 : the API-key cipher round trip -/

theorem b64_inv_all : ∀ n, n < 64 → b64val (b64digit n) = n := by decide

theorem b64digit_ne_pad : ∀ n, n < 64 → ¬(b64digit n = '=') := by decide

/-- `atob` undoes `btoa` on byte lists. -/
theorem atob_btoa : ∀ (bs : List Nat), (∀ b ∈ bs, b < 256) →
    atobChars (btoaBytes bs) = bs
  | [], _ => rfl
  | [b1], h => by
    have hb1 : b1 < 256 := h b1 (by simp)
    simp only [btoaBytes, atobChars, if_true]
    rw [b64_inv_all _ (by omega), b64_inv_all _ (by omega)]
    simp only [List.cons.injEq, and_true]
    omega
  | [b1, b2], h => by
    have hb1 : b1 < 256 := h b1 (by simp)
    have hb2 : b2 < 256 := h b2 (by simp)
    simp only [btoaBytes, atobChars, if_true]
    rw [if_neg (b64digit_ne_pad _ (by omega)),
      b64_inv_all _ (by omega), b64_inv_all _ (by omega),
      b64_inv_all _ (by omega)]
    simp only [List.cons.injEq, and_true]
    constructor <;> omega
  | b1 :: b2 :: b3 :: rest, h => by
    have hb1 : b1 < 256 := h b1 (by simp)
    have hb2 : b2 < 256 := h b2 (by simp)
    have hb3 : b3 < 256 := h b3 (by simp)
    have ih := atob_btoa rest (fun b hb => h b (by simp [hb]))
    simp only [btoaBytes, atobChars]
    rw [if_neg (b64digit_ne_pad _ (by omega)),
      if_neg (b64digit_ne_pad _ (by omega)),
      b64_inv_all _ (by omega), b64_inv_all _ (by omega),
      b64_inv_all _ (by omega), b64_inv_all _ (by omega), ih]
    simp only [List.cons.injEq]
    refine ⟨by omega, by omega, by omega, trivial⟩

/-- The device pad character is a byte when the device id is made of bytes. -/
theorem devAt_lt (dev : List Nat) (hd : ∀ d ∈ dev, d < 256) (hdev : dev ≠ [])
    (i : Nat) : devAt dev i < 256 := by
  unfold devAt
  have hlen : 0 < dev.length := List.length_pos.mpr hdev
  have hmod : i % dev.length < dev.length := Nat.mod_lt _ hlen
  rw [List.getD_eq_getElem dev 0 hmod]
  exact hd _ (List.getElem_mem hmod)

/-- XOR with the pad keeps bytes bytes. -/
theorem xorPad_lt (dev : List Nat) (hd : ∀ d ∈ dev, d < 256) (hdev : dev ≠ []) :
    ∀ (i : Nat) (bs : List Nat), (∀ b ∈ bs, b < 256) →
      ∀ x ∈ xorPad dev i bs, x < 256
  | _, [], _ => by simp [xorPad]
  | i, b :: bs, h => by
    intro x hx
    simp only [xorPad, List.mem_cons] at hx
    rcases hx with hx | hx
    · subst hx
      have h1 : b < 2 ^ 8 := h b (by simp)
      have h2 : devAt dev i < 2 ^ 8 := devAt_lt dev hd hdev i
      have := Nat.xor_lt_two_pow h1 h2
      simpa using this
    · exact xorPad_lt dev hd hdev (i + 1) bs (fun y hy => h y (by simp [hy])) x hx

/-- XOR with the same pad twice is the identity. -/
theorem xorPad_xorPad (dev : List Nat) : ∀ (i : Nat) (bs : List Nat),
    xorPad dev i (xorPad dev i bs) = bs
  | _, [] => rfl
  | i, b :: bs => by
    simp only [xorPad, List.cons.injEq]
    exact ⟨Nat.xor_cancel_right _ _, xorPad_xorPad dev (i + 1) bs⟩

theorem btoaBytes_ne_nil : ∀ (bs : List Nat), bs ≠ [] → btoaBytes bs ≠ []
  | [], h => absurd rfl h
  | [_], _ => by simp [btoaBytes]
  | [_, _], _ => by simp [btoaBytes]
  | _ :: _ :: _ :: _, _ => by simp [btoaBytes]

/-- **C9.** For keys whose code units are at most 255 and a fixed non-empty
device fingerprint of byte-sized characters, `decryptApiKey` inverts
`encryptApiKey` (XOR with the repeating device pad composed with base64 is a
round trip), and both map the empty string to the empty string. -/
theorem apiKey_roundtrip (dev k : List Nat) (hk : ∀ c ∈ k, c < 256)
    (hd : ∀ d ∈ dev, d < 256) (hdev : dev ≠ []) :
    decryptApiKey dev (encryptApiKey dev k) = k ∧
    encryptApiKey dev [] = [] ∧ decryptApiKey dev [] = [] := by
  refine ⟨?_, rfl, rfl⟩
  by_cases hk0 : k = []
  · subst hk0; simp [encryptApiKey, decryptApiKey]
  · have hxne : xorPad dev 0 k ≠ [] := by
      cases k with
      | nil => exact absurd rfl hk0
      | cons b bs => simp [xorPad]
    rw [encryptApiKey, if_neg hk0, decryptApiKey,
      if_neg (btoaBytes_ne_nil _ hxne),
      atob_btoa _ (xorPad_lt dev hd hdev 0 k hk)]
    exact xorPad_xorPad dev 0 k

/-- Witness for C9: a concrete key and device id. -/
theorem apiKey_roundtrip_witness :
    decryptApiKey [97, 48, 102, 53] (encryptApiKey [97, 48, 102, 53]
      [115, 107, 45, 84, 69, 83, 84, 255, 0]) =
      [115, 107, 45, 84, 69, 83, 84, 255, 0] ∧
    encryptApiKey [97, 48, 102, 53] [] = [] ∧
    decryptApiKey [97, 48, 102, 53] [] = [] :=
  apiKey_roundtrip [97, 48, 102, 53] [115, 107, 45, 84, 69, 83, 84, 255, 0]
    (by decide) (by decide) (by decide)

end VaultLLM


